import Mathlib

/-!
# Verification of the habit-tracker day-status aggregation engine

Shallow embedding of the TypeScript services of the habit-tracking
application (`HabitService`, `HabitLogService`, and the `DayCell`
classification) together with proofs of the specified properties.

Strings (ids, dates `"YYYY-MM-DD"`, colors, timestamps) are modelled by
`String`; JS arrays by `List`; the optional `habitFilter` argument and
optional record fields by `Option`.  The persisted application state is
the record `{habits, logs, settings}`; mutators are state-passing
functions returning the value the TypeScript method returns together
with the state that is saved (a call that returns without saving yields
the unchanged state).
-/

namespace HabitTracker

/-- Model of `HabitReminder` from `habit.types.ts`: `{enabled, time}`. -/
structure HabitReminder where
  enabled : Bool
  time : String
deriving Repr, DecidableEq

/-- Model of `Habit` from `habit.types.ts`. `reminder?` is optional. -/
structure Habit where
  id : String
  name : String
  color : String
  mandatory : Bool
  createdAt : String
  reminder : Option HabitReminder := none
deriving Repr, DecidableEq

/-- Model of `HabitLog` from `habit.types.ts`: one completion fact. -/
structure HabitLog where
  habitId : String
  date : String
  completed : Bool
deriving Repr, DecidableEq

/-- Model of `HabitSettings` from `habit.types.ts`. -/
structure HabitSettings where
  notificationsEnabled : Bool
  currentYear : Nat
deriving Repr, DecidableEq

/-- Model of `HabitAppState` from `habit.types.ts`: the persisted blob. -/
structure HabitAppState where
  habits : List Habit
  logs : List HabitLog
  settings : HabitSettings
deriving Repr, DecidableEq

/-- Model of `DayStatus` from `habit.types.ts`.  The field `isFiltered?: boolean`
is optional in TypeScript, hence `Option Bool` here (`none` = the field
was left `undefined`). -/
structure DayStatus where
  date : String
  mandatoryCompleted : Nat
  mandatoryTotal : Nat
  optionalCompleted : Nat
  optionalTotal : Nat
  completedColors : List String
  isFiltered : Option Bool := none
deriving Repr, DecidableEq

/-- Model of `CreateHabitData` from `habit.types.ts`. -/
structure CreateHabitData where
  name : String
  color : String
  mandatory : Bool
  reminder : Option HabitReminder := none
deriving Repr, DecidableEq

/-- Model of `UpdateHabitData` from `habit.types.ts`: all fields optional
(`none` = the key is absent from the partial update object). -/
structure UpdateHabitData where
  name : Option String := none
  color : Option String := none
  mandatory : Option Bool := none
  reminder : Option HabitReminder := none
deriving Repr, DecidableEq

/-- Character-list version of the JS `String.prototype.startsWith` test
used by `getLogsForYear` (`log.date.startsWith(yearPre)`). -/
def charsStartWith : List Char → List Char → Bool
  | _, [] => true
  | [], _ :: _ => false
  | c :: cs, p :: ps => c == p && charsStartWith cs ps

/-- Model of `s.startsWith(pre)` on the underlying character lists. -/
def strStartsWith (s pre : String) : Bool :=
  charsStartWith s.data pre.data

/-- Model of `HabitLogService.getLogsForYear`: keep the logs whose date starts
with `"YYYY-"`. -/
def getLogsForYear (year : Nat) (logs : List HabitLog) : List HabitLog :=
  logs.filter fun log => strStartsWith log.date (toString year ++ "-")

/-- Model of `HabitLogService.isCompleted`: completion flag of the first log for
the pair, `false` when none exists. -/
def isCompleted (logs : List HabitLog) (habitId date : String) : Bool :=
  match logs.find? (fun l => l.habitId == habitId && l.date == date) with
  | some l => l.completed
  | none => false

/-- Model of `HabitLogService.toggleCompletion` on the logs collection: flip the
first entry for the pair in place, or append `{completed := true}` when
none exists.  Returns `(new status, new logs)`. -/
def toggleCompletion : List HabitLog → String → String → Bool × List HabitLog
  | [], habitId, date => (true, [⟨habitId, date, true⟩])
  | l :: ls, habitId, date =>
    if l.habitId == habitId && l.date == date then
      (!l.completed, { l with completed := !l.completed } :: ls)
    else
      let r := toggleCompletion ls habitId date
      (r.1, l :: r.2)

/-- Model of `HabitLogService.setCompletion` on the logs collection: overwrite
the first entry for the pair in place, or append when none exists. -/
def setCompletion : List HabitLog → String → String → Bool → List HabitLog
  | [], habitId, date, completed => [⟨habitId, date, completed⟩]
  | l :: ls, habitId, date, completed =>
    if l.habitId == habitId && l.date == date then
      { l with completed := completed } :: ls
    else
      l :: setCompletion ls habitId date completed

/-- Model of `HabitService.createHabit`.  The TypeScript code obtains the id from
`generateId()` and the timestamp from `new Date().toISOString()`; these
environment values are passed in as `freshId` and `now`.  Note that the
constructed habit copies `name`, `color` and `mandatory` from `data` but
does **not** copy `data.reminder` (the source builds the object literal
without a `reminder` key). -/
def createHabit (freshId now : String) (data : CreateHabitData)
    (s : HabitAppState) : Habit × HabitAppState :=
  let newHabit : Habit :=
    { id := freshId
      name := data.name
      color := data.color
      mandatory := data.mandatory
      createdAt := now
      reminder := none }
  (newHabit, { s with habits := s.habits ++ [newHabit] })

/-- The object spread `{...habit, ...updates}` of `updateHabit`: keys
present in the partial update replace the old values, absent keys keep
them; `id` and `createdAt` are not part of `UpdateHabitData`. -/
def applyUpdate (h : Habit) (u : UpdateHabitData) : Habit :=
  { h with
    name := u.name.getD h.name
    color := u.color.getD h.color
    mandatory := u.mandatory.getD h.mandatory
    reminder := match u.reminder with
      | some r => some r
      | none => h.reminder }

/-- Replace the first habit whose id matches (the `findIndex` + in-place
assignment of `updateHabit`); `none` when no habit matches. -/
def updateHabitList : List Habit → String → UpdateHabitData →
    Option (Habit × List Habit)
  | [], _, _ => none
  | h :: hs, id, u =>
    if h.id == id then
      some (applyUpdate h u, applyUpdate h u :: hs)
    else
      match updateHabitList hs id u with
      | none => none
      | some (h2, hs2) => some (h2, h :: hs2)

/-- Model of `HabitService.updateHabit`: returns `(null, unchanged state)` when
the id does not exist (nothing is saved), otherwise the merged habit and
the saved state. -/
def updateHabit (id : String) (u : UpdateHabitData)
    (s : HabitAppState) : Option Habit × HabitAppState :=
  match updateHabitList s.habits id u with
  | none => (none, s)
  | some (h2, hs2) => (some h2, { s with habits := hs2 })

/-- Model of `HabitService.deleteHabit`: filter the habit out of `habits` and
cascade-filter its logs; return whether the habits collection shrank.
When no habit matched, the method returns `false` without saving, so the
persisted state is unchanged. -/
def deleteHabit (id : String) (s : HabitAppState) : Bool × HabitAppState :=
  if s.habits.any (fun h => h.id == id) then
    (true,
     { s with
       habits := s.habits.filter (fun h => h.id != id)
       logs := s.logs.filter (fun log => log.habitId != id) })
  else
    (false, s)

/-- Truthiness of the JS value `habitFilter && habitFilter.length > 0`
(`undefined` is falsy). -/
def filterOn (habitFilter : Option (List String)) : Bool :=
  match habitFilter with
  | some f => !f.isEmpty
  | none => false

/-- The JS value `habitFilter && habitFilter.length > 0` itself:
`undefined` when no filter argument was passed, a boolean otherwise.
This value is stored verbatim in `DayStatus.isFiltered`. -/
def isFilterActive (habitFilter : Option (List String)) : Option Bool :=
  habitFilter.map fun f => !f.isEmpty

/-- The `activeHabits` binding of `getDayStatusMap`: restrict to the
filter when it is active, otherwise all habits. -/
def activeHabitsOf (habits : List Habit)
    (habitFilter : Option (List String)) : List Habit :=
  if filterOn habitFilter then
    habits.filter fun h => (habitFilter.getD []).contains h.id
  else
    habits

/-- The `activeLogs` binding of `getDayStatusMap`: the year's logs,
restricted to filtered habit ids when the filter is active.  Note the
restriction tests membership in `habitFilter`, not in the habit
universe. -/
def activeLogsOf (year : Nat) (logs : List HabitLog)
    (habitFilter : Option (List String)) : List HabitLog :=
  let yearLogs := getLogsForYear year logs
  if filterOn habitFilter then
    yearLogs.filter fun log => (habitFilter.getD []).contains log.habitId
  else
    yearLogs

/-- First-occurrence deduplication of the date keys, mirroring the
insertion order of the JS `Map` used to group logs by date. -/
def dedupKeys (seen : List String) : List String → List String
  | [] => []
  | d :: ds =>
    if seen.contains d then dedupKeys seen ds
    else d :: dedupKeys (d :: seen) ds

/-- The habits resolved by the inner loop for one date: for each log of
that date with `completed == true`, the first habit of the active set
whose id matches (logs whose habit is not found contribute nothing). -/
def resolvedOf (activeHabits : List Habit) (activeLogs : List HabitLog)
    (date : String) : List Habit :=
  (activeLogs.filter fun log => log.date == date).filterMap fun log =>
    if log.completed then
      activeHabits.find? fun h => h.id == log.habitId
    else
      none

/-- The body of the per-date loop of `getDayStatusMap`: compute the
counters and colors for `date` and emit the `DayStatus` according to the
`if / else if` at the end of the loop (`fOn` is the truthiness of
`isFilterActive`, `fActive` the raw value). -/
def dayStatusFor (activeHabits : List Habit) (activeLogs : List HabitLog)
    (fActive : Option Bool) (date : String) : Option DayStatus :=
  let mandatoryHabits := activeHabits.filter (·.mandatory)
  let optionalHabits := activeHabits.filter fun h => !h.mandatory
  let resolved := resolvedOf activeHabits activeLogs date
  let completedColors := resolved.map (·.color)
  let mandatoryCompleted := (resolved.filter (·.mandatory)).length
  let optionalCompleted := (resolved.filter fun h => !h.mandatory).length
  let fOn := fActive.getD false
  if completedColors.length > 0 || fOn then
    some
      { date := date
        mandatoryCompleted := mandatoryCompleted
        mandatoryTotal := mandatoryHabits.length
        optionalCompleted := optionalCompleted
        optionalTotal := optionalHabits.length
        completedColors := completedColors
        isFiltered := fActive }
  else if !fOn then
    some
      { date := date
        mandatoryCompleted := mandatoryCompleted
        mandatoryTotal := mandatoryHabits.length
        optionalCompleted := optionalCompleted
        optionalTotal := optionalHabits.length
        completedColors := completedColors
        isFiltered := some false }
  else
    none

/-- Model of `HabitLogService.getDayStatusMap` (the filtering-aware variant):
the result `Map` is modelled as an association list in key insertion
order. -/
def getDayStatusMap (year : Nat) (habits : List Habit)
    (logs : List HabitLog) (habitFilter : Option (List String) := none) :
    List (String × DayStatus) :=
  let activeHabits := activeHabitsOf habits habitFilter
  let activeLogs := activeLogsOf year logs habitFilter
  let dates := dedupKeys [] (activeLogs.map (·.date))
  dates.filterMap fun d =>
    (dayStatusFor activeHabits activeLogs (isFilterActive habitFilter) d).map
      fun st => (d, st)

/-- The inline styles `DayCell` can choose for the dot, abstracted to
their identity. -/
inductive DotStyle where
  | future
  | noStatus
  | singleColor (c : String)
  | conicGradient (cs : List String)
  | green
  | yellow
  | blue
  | red
  | partialYellow
  | neutral
deriving Repr, DecidableEq

/-- The `dotStyle` computation of `DayCell.tsx` (the `useMemo` body).
`status.isFiltered` is read truthily. -/
def dotStyle (status : Option DayStatus) (isFuture : Bool) : DotStyle :=
  if isFuture then .future
  else
    match status with
    | none => .noStatus
    | some s =>
      if s.isFiltered.getD false && decide (s.completedColors.length > 0) then
        match s.completedColors with
        | [c] => .singleColor c
        | cs => .conicGradient cs
      else
        let totalHabits := s.mandatoryTotal + s.optionalTotal
        let completedHabits := s.mandatoryCompleted + s.optionalCompleted
        let allMandatoryDone :=
          decide (s.mandatoryTotal > 0) &&
            s.mandatoryCompleted == s.mandatoryTotal
        let allOptionalDone :=
          decide (s.optionalTotal > 0) &&
            s.optionalCompleted == s.optionalTotal
        let someOptionalDone := decide (s.optionalCompleted > 0)
        if decide (totalHabits > 0) && completedHabits == totalHabits then
          .green
        else if allMandatoryDone && someOptionalDone && !allOptionalDone then
          .yellow
        else if allMandatoryDone then
          .blue
        else if decide (totalHabits > 0) && completedHabits == 0 then
          .red
        else if decide (completedHabits > 0) then
          .partialYellow
        else
          .neutral

/-- The `allMandatoryComplete` flag of `DayCell.tsx` driving the
celebration effect (star, `day-cell--all-mandatory` class). -/
def allMandatoryComplete (status : Option DayStatus) (isFuture : Bool) : Bool :=
  match status with
  | none => false
  | some s =>
    decide (s.mandatoryTotal > 0) &&
      s.mandatoryCompleted == s.mandatoryTotal &&
      !(s.isFiltered.getD false) &&
      !isFuture

/-- Invariant of the completion log: at most one entry per
`(habitId, date)` pair. -/
def UniquePerPair (logs : List HabitLog) : Prop :=
  logs.Pairwise fun a b => ¬(a.habitId = b.habitId ∧ a.date = b.date)

/-- Concrete mandatory habit used in witnesses and counterexamples. -/
def habitA : Habit :=
  { id := "a", name := "Run", color := "#ef4444", mandatory := true
    createdAt := "2024-01-01T00:00:00Z" }

/-- Concrete optional habit used in witnesses and counterexamples. -/
def habitB : Habit :=
  { id := "b", name := "Read", color := "#22c55e", mandatory := false
    createdAt := "2024-01-01T00:00:00Z" }

/-- Completed log entry of `habitA` on 2024-01-01. -/
def logA : HabitLog := { habitId := "a", date := "2024-01-01", completed := true }

/-- Uncompleted log entry of `habitB` on 2024-01-01. -/
def logB : HabitLog := { habitId := "b", date := "2024-01-01", completed := false }

/-- Log entry whose `habitId` matches no habit of the universe. -/
def ghostLog : HabitLog :=
  { habitId := "ghost", date := "2024-01-01", completed := true }

/-- Concrete settings record. -/
def settings0 : HabitSettings := { notificationsEnabled := false, currentYear := 2024 }

/-- Concrete application state with two habits and two logs. -/
def state0 : HabitAppState :=
  { habits := [habitA, habitB], logs := [logA, logB], settings := settings0 }

/-- Concrete creation payload carrying a reminder. -/
def createData0 : CreateHabitData :=
  { name := "Gym", color := "#3b82f6", mandatory := true
    reminder := some { enabled := true, time := "08:00" } }

/-- Concrete partial update renaming a habit. -/
def updData0 : UpdateHabitData := { name := some "Walk" }

/-- Concrete fresh id for a creation call. -/
def freshId0 : String := "habit-3"

/-- Concrete creation timestamp. -/
def now0 : String := "2024-06-01T10:00:00Z"

/-- Concrete habit id used in witnesses. -/
def idA : String := "a"

/-- Concrete id matching no habit of `state0`. -/
def idZ : String := "zz"

/-- Concrete date used in witnesses. -/
def dateA : String := "2024-01-01"

/-- Concrete fresh date with no log entry in `state0`. -/
def dateNew : String := "2024-06-01"

/-- Concrete non-empty filter selecting both habits of `state0`. -/
def filtW : Option (List String) := some ["a", "b"]

/-- Status emitted for 2024-01-01 by an unfiltered aggregation over
`state0`. -/
def stNF : DayStatus :=
  { date := "2024-01-01", mandatoryCompleted := 1, mandatoryTotal := 1
    optionalCompleted := 0, optionalTotal := 1
    completedColors := ["#ef4444"], isFiltered := none }

/-- Status emitted for 2024-01-01 by an aggregation over `state0`
filtered to `filtW`. -/
def stW : DayStatus :=
  { date := "2024-01-01", mandatoryCompleted := 1, mandatoryTotal := 1
    optionalCompleted := 0, optionalTotal := 1
    completedColors := ["#ef4444"], isFiltered := some true }

/-- Status emitted for 2024-01-01 when only the optional habit exists
and its log is uncompleted. -/
def stOpt : DayStatus :=
  { date := "2024-01-01", mandatoryCompleted := 0, mandatoryTotal := 0
    optionalCompleted := 0, optionalTotal := 1
    completedColors := [], isFiltered := some false }

/-! ## Helper lemmas -/

/-- Membership in the deduplicated key list. -/
lemma mem_dedupKeys : ∀ (l seen : List String) (d : String),
    d ∈ dedupKeys seen l ↔ d ∈ l ∧ d ∉ seen
  | [], seen, d => by simp [dedupKeys]
  | x :: xs, seen, d => by
    simp only [dedupKeys]
    by_cases hx : x ∈ seen
    · rw [if_pos (by simpa using hx), mem_dedupKeys xs seen d]
      constructor
      · rintro ⟨h1, h2⟩
        exact ⟨List.mem_cons_of_mem _ h1, h2⟩
      · rintro ⟨h1, h2⟩
        rcases List.mem_cons.mp h1 with rfl | h1
        · exact absurd hx h2
        · exact ⟨h1, h2⟩
    · rw [if_neg (by simpa using hx)]
      constructor
      · intro hmem
        rcases List.mem_cons.mp hmem with rfl | h1
        · exact ⟨List.mem_cons_self _ _, hx⟩
        · rcases (mem_dedupKeys xs (x :: seen) d).mp h1 with ⟨h2, h3⟩
          exact ⟨List.mem_cons_of_mem _ h2,
            fun hd => h3 (List.mem_cons_of_mem _ hd)⟩
      · rintro ⟨h1, h2⟩
        by_cases hdx : d = x
        · subst hdx
          exact List.mem_cons_self _ _
        · rcases List.mem_cons.mp h1 with rfl | h1
          · exact absurd rfl hdx
          · refine List.mem_cons_of_mem _
              ((mem_dedupKeys xs (x :: seen) d).mpr ⟨h1, ?_⟩)
            intro hd
            rcases List.mem_cons.mp hd with rfl | hd
            · exact hdx rfl
            · exact h2 hd

/-- The per-date loop body always emits a status: the final `else`
branch (omit the date) is unreachable. -/
lemma dayStatusFor_isSome (A : List Habit) (L : List HabitLog)
    (o : Option Bool) (d : String) :
    ∃ st, dayStatusFor A L o d = some st := by
  simp only [dayStatusFor]
  split
  · exact ⟨_, rfl⟩
  · split
    · exact ⟨_, rfl⟩
    · exfalso
      rcases Bool.eq_false_or_eq_true (o.getD false) with hf | hf <;> simp_all

/-- Field-level description of any emitted status. -/
lemma dayStatusFor_some {A : List Habit} {L : List HabitLog}
    {o : Option Bool} {d : String} {st : DayStatus}
    (h : dayStatusFor A L o d = some st) :
    st.date = d ∧
    st.completedColors = (resolvedOf A L d).map (fun x => x.color) ∧
    st.mandatoryCompleted =
      ((resolvedOf A L d).filter (fun x => x.mandatory)).length ∧
    st.optionalCompleted =
      ((resolvedOf A L d).filter (fun x => !x.mandatory)).length ∧
    st.mandatoryTotal = (A.filter (fun x => x.mandatory)).length ∧
    st.optionalTotal = (A.filter (fun x => !x.mandatory)).length ∧
    (st.isFiltered = o ∨ st.isFiltered = some false) := by
  simp only [dayStatusFor] at h
  split at h
  · cases h
    exact ⟨rfl, rfl, rfl, rfl, rfl, rfl, Or.inl rfl⟩
  · split at h
    · cases h
      exact ⟨rfl, rfl, rfl, rfl, rfl, rfl, Or.inr rfl⟩
    · exact absurd h (by simp)

/-- Exact description of the `isFiltered` field of an emitted status. -/
lemma dayStatusFor_isFiltered {A : List Habit} {L : List HabitLog}
    {o : Option Bool} {d : String} {st : DayStatus}
    (h : dayStatusFor A L o d = some st) :
    (o.getD false = true → st.isFiltered = o) ∧
    (o.getD false = false →
      (resolvedOf A L d ≠ [] → st.isFiltered = o) ∧
      (resolvedOf A L d = [] → st.isFiltered = some false)) := by
  simp only [dayStatusFor] at h
  split at h
  · rename_i hc
    cases h
    refine ⟨fun _ => rfl, fun hf0 => ⟨fun _ => rfl, fun hre => ?_⟩⟩
    simp [hre, hf0] at hc
  · split at h
    · rename_i hc1 hc2
      cases h
      refine ⟨fun hf1 => ?_, fun _ => ⟨fun hne => ?_, fun _ => rfl⟩⟩
      · simp [hf1] at hc2
      · exfalso
        apply hc1
        simp only [Bool.or_eq_true, decide_eq_true_eq]
        left
        have hmapne : (resolvedOf A L d).map (fun x => x.color) ≠ [] := by
          simpa using hne
        exact List.length_pos.mpr hmapne
    · exact absurd h (by simp)

/-- Membership in the aggregator output, reduced to the date key list
and the per-date body. -/
lemma mem_getDayStatusMap {year : Nat} {habits : List Habit}
    {logs : List HabitLog} {filt : Option (List String)}
    {d : String} {st : DayStatus} :
    (d, st) ∈ getDayStatusMap year habits logs filt ↔
      d ∈ dedupKeys [] ((activeLogsOf year logs filt).map (fun l => l.date)) ∧
      dayStatusFor (activeHabitsOf habits filt) (activeLogsOf year logs filt)
        (isFilterActive filt) d = some st := by
  simp only [getDayStatusMap, List.mem_filterMap]
  constructor
  · rintro ⟨d2, hd2, hmap⟩
    rcases Option.map_eq_some'.mp hmap with ⟨st2, hsome, heq⟩
    cases heq
    exact ⟨hd2, hsome⟩
  · rintro ⟨hd, hsome⟩
    exact ⟨d, hd, by rw [hsome]; rfl⟩

/-- Every habit resolved for a date comes from the active habit set and
from a completed log of that date. -/
lemma mem_resolvedOf {A : List Habit} {L : List HabitLog} {d : String}
    {x : Habit} (hx : x ∈ resolvedOf A L d) :
    x ∈ A ∧ ∃ l, l ∈ L ∧ l.date = d ∧ l.completed = true ∧ x.id = l.habitId := by
  simp only [resolvedOf, List.mem_filterMap] at hx
  rcases hx with ⟨l, hl, hfx⟩
  rcases List.mem_filter.mp hl with ⟨hlL, hld⟩
  by_cases hcomp : l.completed
  · rw [if_pos hcomp] at hfx
    refine ⟨List.mem_of_find?_eq_some hfx, l, hlL, by simpa using hld, hcomp, ?_⟩
    have := List.find?_some hfx
    simpa using this
  · rw [if_neg hcomp] at hfx
    cases hfx

/-- The active log set is a sublist of the raw log collection. -/
lemma activeLogsOf_sublist (year : Nat) (logs : List HabitLog)
    (filt : Option (List String)) :
    List.Sublist (activeLogsOf year logs filt) logs := by
  unfold activeLogsOf
  split
  · exact List.Sublist.trans (List.filter_sublist _)
      (List.filter_sublist _)
  · exact List.filter_sublist _

/-- The active habit set is a subset of the habit universe. -/
lemma activeHabitsOf_subset (habits : List Habit)
    (filt : Option (List String)) :
    ∀ x ∈ activeHabitsOf habits filt, x ∈ habits := by
  intro x hx
  unfold activeHabitsOf at hx
  split at hx
  · exact (List.mem_filter.mp hx).1
  · exact hx

/-- Splitting a list by a Boolean predicate preserves its length. -/
lemma length_filter_partition {α : Type} (p : α → Bool) (l : List α) :
    (l.filter p).length + (l.filter (fun a => !p a)).length = l.length := by
  induction l with
  | nil => rfl
  | cons x xs ih =>
    by_cases hx : p x
    · simp [List.filter_cons, hx, ← ih]
      omega
    · simp only [Bool.not_eq_true] at hx
      simp [List.filter_cons, hx, ← ih]
      omega

/-- Ids of the resolved habits all occur among the habit ids of the
walked logs. -/
lemma resolved_ids_sub (A : List Habit) :
    ∀ (ls : List HabitLog) (x : String),
      x ∈ (ls.filterMap fun log =>
        if log.completed then A.find? (fun h2 => h2.id == log.habitId)
        else none).map (fun h2 => h2.id) →
      x ∈ ls.map (fun l => l.habitId) := by
  intro ls x hx
  simp only [List.mem_map, List.mem_filterMap] at hx
  rcases hx with ⟨h2, ⟨l, hl, hfl⟩, hid⟩
  by_cases hcomp : l.completed
  · rw [if_pos hcomp] at hfl
    have := List.find?_some hfl
    simp only [beq_iff_eq] at this
    exact List.mem_map.mpr ⟨l, hl, by rw [← hid, this]⟩
  · rw [if_neg hcomp] at hfl
    cases hfl

/-- With pairwise-distinct habit ids among the walked logs, the resolved
habits have pairwise-distinct ids. -/
lemma resolved_ids_nodup (A : List Habit) :
    ∀ (ls : List HabitLog),
      ls.Pairwise (fun a b => a.habitId ≠ b.habitId) →
      ((ls.filterMap fun log =>
        if log.completed then A.find? (fun h2 => h2.id == log.habitId)
        else none).map (fun h2 => h2.id)).Nodup := by
  intro ls hpw
  induction ls with
  | nil => simp
  | cons l ls ih =>
    rcases List.pairwise_cons.mp hpw with ⟨hhead, htail⟩
    rw [List.filterMap_cons]
    rcases hfl : (if l.completed then
        A.find? (fun h2 => h2.id == l.habitId) else none) with _ | x
    · rw [hfl]
      exact ih htail
    · rw [hfl, List.map_cons]
      refine List.nodup_cons.mpr ⟨?_, ih htail⟩
      intro hxin
      have hsub := resolved_ids_sub A ls x.id hxin
      rcases List.mem_map.mp hsub with ⟨l2, hl2, hid2⟩
      have hxid : x.id = l.habitId := by
        by_cases hcomp : l.completed
        · rw [if_pos hcomp] at hfl
          simpa using List.find?_some hfl
        · rw [if_neg hcomp] at hfl
          cases hfl
      exact hhead l2 hl2 (by rw [← hxid, hid2])

/-- Counting bound: when the walked logs have pairwise-distinct habit
ids, the resolved habits satisfying a predicate are no more numerous
than the active habits satisfying it. -/
lemma resolved_filter_length_le (A : List Habit) (L : List HabitLog)
    (d : String) (q : Habit → Bool)
    (hpw : (L.filter fun l => l.date == d).Pairwise
      (fun a b => a.habitId ≠ b.habitId)) :
    ((resolvedOf A L d).filter q).length ≤ (A.filter q).length := by
  set R := resolvedOf A L d with hR
  have hnodupR : (R.map (fun h2 => h2.id)).Nodup := by
    rw [hR]
    exact resolved_ids_nodup A _ hpw
  have hsubl : List.Sublist ((R.filter q).map (fun h2 => h2.id))
      (R.map (fun h2 => h2.id)) := (List.filter_sublist R).map _
  have hnodup : ((R.filter q).map (fun h2 => h2.id)).Nodup :=
    hnodupR.sublist hsubl
  have hsub : (R.filter q).map (fun h2 => h2.id) ⊆
      (A.filter q).map (fun h2 => h2.id) := by
    intro x hx
    rcases List.mem_map.mp hx with ⟨h2, hh2, hid⟩
    rcases List.mem_filter.mp hh2 with ⟨hh2R, hq⟩
    have hh2A : h2 ∈ A := (mem_resolvedOf (hR ▸ hh2R)).1
    exact List.mem_map.mpr ⟨h2, List.mem_filter.mpr ⟨hh2A, hq⟩, hid⟩
  have := (List.subperm_of_subset hnodup hsub).length_le
  simpa using this

/-- Under the one-entry-per-pair invariant, the logs of one date have
pairwise-distinct habit ids. -/
lemma dateLogs_ids_pairwise {logs : List HabitLog} (year : Nat)
    (filt : Option (List String)) (d : String)
    (hu : UniquePerPair logs) :
    ((activeLogsOf year logs filt).filter fun l => l.date == d).Pairwise
      (fun a b => a.habitId ≠ b.habitId) := by
  have h1 : UniquePerPair (activeLogsOf year logs filt) :=
    hu.sublist (activeLogsOf_sublist year logs filt)
  have h2 : UniquePerPair
      ((activeLogsOf year logs filt).filter fun l => l.date == d) :=
    h1.sublist (List.filter_sublist _)
  refine List.Pairwise.imp_of_mem ?_ h2
  intro a b ha hb hnab heq
  have hda : a.date = d := by simpa using (List.mem_filter.mp ha).2
  have hdb : b.date = d := by simpa using (List.mem_filter.mp hb).2
  exact hnab ⟨heq, by rw [hda, hdb]⟩

/-- Length of a `filterMap` as the count of inputs it keeps. -/
lemma length_filterMap_eq {α β : Type} (f : α → Option β) (l : List α) :
    (l.filterMap f).length = (l.filter fun a => (f a).isSome).length := by
  induction l with
  | nil => rfl
  | cons x xs ih =>
    rw [List.filterMap_cons, List.filter_cons]
    rcases hfx : f x with _ | y
    · simpa [hfx] using ih
    · simpa [hfx] using ih

/-- Unfolding of `isCompleted` on a matching head entry. -/
lemma isCompleted_cons_pos {l : HabitLog} {ls : List HabitLog}
    {h d : String} (hm : (l.habitId == h && l.date == d) = true) :
    isCompleted (l :: ls) h d = l.completed := by
  simp [isCompleted, List.find?, hm]

/-- Unfolding of `isCompleted` on a non-matching head entry. -/
lemma isCompleted_cons_neg {l : HabitLog} {ls : List HabitLog}
    {h d : String} (hm : (l.habitId == h && l.date == d) = false) :
    isCompleted (l :: ls) h d = isCompleted ls h d := by
  simp [isCompleted, List.find?, hm]

/-- Toggling twice restores the reported completion state. -/
lemma toggle_toggle_isCompleted : ∀ (ls : List HabitLog) (h d : String),
    isCompleted
      (toggleCompletion (toggleCompletion ls h d).2 h d).2 h d
      = isCompleted ls h d
  | [], h, d => by
    have he : (HabitLog.habitId ⟨h, d, true⟩ == h &&
        HabitLog.date ⟨h, d, true⟩ == d) = true := by simp
    simp only [toggleCompletion, if_pos he]
    rw [isCompleted_cons_pos (by simp), isCompleted]
    simp [List.find?]
  | l :: ls, h, d => by
    cases hm : (l.habitId == h && l.date == d) with
    | true =>
      have hm2 : (HabitLog.habitId { l with completed := !l.completed } == h &&
          HabitLog.date { l with completed := !l.completed } == d) = true := by
        simpa using hm
      simp only [toggleCompletion, if_pos hm, if_pos hm2]
      rw [isCompleted_cons_pos (by simpa using hm),
        isCompleted_cons_pos hm]
      simp
    | false =>
      simp only [toggleCompletion,
        if_neg (show ¬((l.habitId == h && l.date == d) = true) by simp [hm])]
      rw [isCompleted_cons_neg hm, isCompleted_cons_neg hm]
      exact toggle_toggle_isCompleted ls h d

/-- The value returned by a toggle is what `isCompleted` reports on the
resulting state. -/
lemma toggle_fst_eq_isCompleted : ∀ (ls : List HabitLog) (h d : String),
    (toggleCompletion ls h d).1 =
      isCompleted (toggleCompletion ls h d).2 h d
  | [], h, d => by
    simp only [toggleCompletion]
    rw [isCompleted_cons_pos (by simp)]
  | l :: ls, h, d => by
    cases hm : (l.habitId == h && l.date == d) with
    | true =>
      simp only [toggleCompletion, if_pos hm]
      rw [isCompleted_cons_pos (by simpa using hm)]
    | false =>
      simp only [toggleCompletion,
        if_neg (show ¬((l.habitId == h && l.date == d) = true) by simp [hm])]
      rw [isCompleted_cons_neg hm]
      exact toggle_fst_eq_isCompleted ls h d

/-- When no entry exists for the pair, a toggle appends a completed
entry and returns `true`. -/
lemma toggle_of_not_mem : ∀ (ls : List HabitLog) (h d : String),
    (∀ l ∈ ls, ¬(l.habitId = h ∧ l.date = d)) →
    toggleCompletion ls h d = (true, ls ++ [⟨h, d, true⟩])
  | [], h, d, _ => rfl
  | l :: ls, h, d, hno => by
    have hm : ¬((l.habitId == h && l.date == d) = true) := by
      intro hc
      rcases Bool.and_eq_true_iff.mp hc with ⟨h1, h2⟩
      exact hno l (List.mem_cons_self _ _) ⟨by simpa using h1, by simpa using h2⟩
    simp only [toggleCompletion, if_neg hm]
    rw [toggle_of_not_mem ls h d
      (fun l2 hl2 => hno l2 (List.mem_cons_of_mem _ hl2))]
    simp

/-- When no entry exists for the pair, a set appends the entry. -/
lemma set_of_not_mem : ∀ (ls : List HabitLog) (h d : String) (c : Bool),
    (∀ l ∈ ls, ¬(l.habitId = h ∧ l.date = d)) →
    setCompletion ls h d c = ls ++ [⟨h, d, c⟩]
  | [], _, _, _, _ => rfl
  | l :: ls, h, d, c, hno => by
    have hm : ¬((l.habitId == h && l.date == d) = true) := by
      intro hc
      rcases Bool.and_eq_true_iff.mp hc with ⟨h1, h2⟩
      exact hno l (List.mem_cons_self _ _) ⟨by simpa using h1, by simpa using h2⟩
    simp only [setCompletion, if_neg hm]
    rw [set_of_not_mem ls h d c
      (fun l2 hl2 => hno l2 (List.mem_cons_of_mem _ hl2))]
    simp

/-- Every entry after a toggle keeps the `(habitId, date)` key of an
original entry or carries the toggled key. -/
lemma mem_toggle_snd : ∀ (ls : List HabitLog) (h d : String),
    ∀ x ∈ (toggleCompletion ls h d).2,
      (∃ y ∈ ls, x.habitId = y.habitId ∧ x.date = y.date) ∨
        (x.habitId = h ∧ x.date = d)
  | [], h, d => by
    intro x hx
    simp only [toggleCompletion, List.mem_singleton] at hx
    subst hx
    exact Or.inr ⟨rfl, rfl⟩
  | l :: ls, h, d => by
    intro x hx
    by_cases hm : (l.habitId == h && l.date == d) = true
    · simp only [toggleCompletion, if_pos hm, List.mem_cons] at hx
      rcases hx with rfl | hx
      · exact Or.inl ⟨l, List.mem_cons_self _ _, rfl, rfl⟩
      · exact Or.inl ⟨x, List.mem_cons_of_mem _ hx, rfl, rfl⟩
    · simp only [toggleCompletion, if_neg hm, List.mem_cons] at hx
      rcases hx with rfl | hx
      · exact Or.inl ⟨x, List.mem_cons_self _ _, rfl, rfl⟩
      · rcases mem_toggle_snd ls h d x hx with ⟨y, hy, hxy⟩ | hk
        · exact Or.inl ⟨y, List.mem_cons_of_mem _ hy, hxy⟩
        · exact Or.inr hk

/-- Every entry after a set keeps the `(habitId, date)` key of an
original entry or carries the written key. -/
lemma mem_set_snd : ∀ (ls : List HabitLog) (h d : String) (c : Bool),
    ∀ x ∈ setCompletion ls h d c,
      (∃ y ∈ ls, x.habitId = y.habitId ∧ x.date = y.date) ∨
        (x.habitId = h ∧ x.date = d)
  | [], h, d, c => by
    intro x hx
    simp only [setCompletion, List.mem_singleton] at hx
    subst hx
    exact Or.inr ⟨rfl, rfl⟩
  | l :: ls, h, d, c => by
    intro x hx
    by_cases hm : (l.habitId == h && l.date == d) = true
    · simp only [setCompletion, if_pos hm, List.mem_cons] at hx
      rcases hx with rfl | hx
      · exact Or.inl ⟨l, List.mem_cons_self _ _, rfl, rfl⟩
      · exact Or.inl ⟨x, List.mem_cons_of_mem _ hx, rfl, rfl⟩
    · simp only [setCompletion, if_neg hm, List.mem_cons] at hx
      rcases hx with rfl | hx
      · exact Or.inl ⟨x, List.mem_cons_self _ _, rfl, rfl⟩
      · rcases mem_set_snd ls h d c x hx with ⟨y, hy, hxy⟩ | hk
        · exact Or.inl ⟨y, List.mem_cons_of_mem _ hy, hxy⟩
        · exact Or.inr hk

/-- A toggle preserves the one-entry-per-pair invariant. -/
lemma UniquePerPair_toggle : ∀ (ls : List HabitLog) (h d : String),
    UniquePerPair ls → UniquePerPair (toggleCompletion ls h d).2
  | [], h, d, _ => by
    simp [toggleCompletion, UniquePerPair]
  | l :: ls, h, d, hu => by
    rcases List.pairwise_cons.mp hu with ⟨hhead, htail⟩
    by_cases hm : (l.habitId == h && l.date == d) = true
    · simp only [toggleCompletion, if_pos hm]
      exact List.pairwise_cons.mpr ⟨fun y hy => hhead y hy, htail⟩
    · simp only [toggleCompletion, if_neg hm]
      refine List.pairwise_cons.mpr
        ⟨?_, UniquePerPair_toggle ls h d htail⟩
      intro x hx ⟨hid, hdate⟩
      rcases mem_toggle_snd ls h d x hx with ⟨y, hy, hxy1, hxy2⟩ | ⟨hk1, hk2⟩
      · exact hhead y hy ⟨hid.trans hxy1, hdate.trans hxy2⟩
      · apply hm
        simp [hid.trans hk1, hdate.trans hk2]

/-- A set preserves the one-entry-per-pair invariant. -/
lemma UniquePerPair_set : ∀ (ls : List HabitLog) (h d : String) (c : Bool),
    UniquePerPair ls → UniquePerPair (setCompletion ls h d c)
  | [], h, d, c, _ => by
    simp [setCompletion, UniquePerPair]
  | l :: ls, h, d, c, hu => by
    rcases List.pairwise_cons.mp hu with ⟨hhead, htail⟩
    by_cases hm : (l.habitId == h && l.date == d) = true
    · simp only [setCompletion, if_pos hm]
      exact List.pairwise_cons.mpr ⟨fun y hy => hhead y hy, htail⟩
    · simp only [setCompletion, if_neg hm]
      refine List.pairwise_cons.mpr
        ⟨?_, UniquePerPair_set ls h d c htail⟩
      intro x hx ⟨hid, hdate⟩
      rcases mem_set_snd ls h d c x hx with ⟨y, hy, hxy1, hxy2⟩ | ⟨hk1, hk2⟩
      · exact hhead y hy ⟨hid.trans hxy1, hdate.trans hxy2⟩
      · apply hm
        simp [hid.trans hk1, hdate.trans hk2]

/-- When no habit carries the id, the first-match update finds
nothing. -/
lemma updateHabitList_none : ∀ (hs : List Habit) (id : String)
    (u : UpdateHabitData), (∀ h ∈ hs, h.id ≠ id) →
    updateHabitList hs id u = none
  | [], _, _, _ => rfl
  | h :: hs, id, u, hno => by
    have hm : ¬((h.id == id) = true) := by
      simpa using hno h (List.mem_cons_self _ _)
    simp only [updateHabitList, if_neg hm]
    rw [updateHabitList_none hs id u
      (fun h2 hh2 => hno h2 (List.mem_cons_of_mem _ hh2))]

/-- First-match update at an explicit decomposition of the list. -/
lemma updateHabitList_found : ∀ (pre : List Habit) (h : Habit)
    (post : List Habit) (id : String) (u : UpdateHabitData),
    (∀ h0 ∈ pre, h0.id ≠ id) → h.id = id →
    updateHabitList (pre ++ h :: post) id u =
      some (applyUpdate h u, pre ++ applyUpdate h u :: post)
  | [], h, post, id, u, _, hh => by
    simp only [List.nil_append, updateHabitList,
      if_pos (show (h.id == id) = true by simpa using hh)]
  | p :: pre, h, post, id, u, hpre, hh => by
    have hm : ¬((p.id == id) = true) := by
      simpa using hpre p (List.mem_cons_self _ _)
    simp only [List.cons_append, updateHabitList, if_neg hm, List.append_eq]
    rw [updateHabitList_found pre h post id u
      (fun h2 hh2 => hpre h2 (List.mem_cons_of_mem _ hh2)) hh]

/-- Every color of an emitted status is the color of an active habit
that has a completed raw log entry on that date. -/
lemma mem_completedColors {year : Nat} {habits : List Habit}
    {logs : List HabitLog} {filt : Option (List String)}
    {d : String} {st : DayStatus} {c : String}
    (hmem : (d, st) ∈ getDayStatusMap year habits logs filt)
    (hc : c ∈ st.completedColors) :
    ∃ h2, h2 ∈ activeHabitsOf habits filt ∧ h2.color = c ∧
      ∃ l, l ∈ logs ∧ l.habitId = h2.id ∧ l.date = d ∧ l.completed = true := by
  rcases (mem_getDayStatusMap.mp hmem).2 with hsome
  rcases dayStatusFor_some hsome with ⟨-, hcolors, -⟩
  rw [hcolors] at hc
  rcases List.mem_map.mp hc with ⟨h2, hh2, hcol⟩
  rcases mem_resolvedOf hh2 with ⟨hh2A, l, hlL, hld, hlc, hlid⟩
  exact ⟨h2, hh2A, hcol, l,
    (activeLogsOf_sublist year logs filt).subset hlL,
    hlid.symm, hld, hlc⟩

/-! ## Claim theorems -/

/-- **C4**: for every habit id, date and starting log state, toggling
twice leaves `isCompleted` at its original value; each toggle returns
exactly the value `isCompleted` reports immediately afterwards; and when
no entry exists for the pair, the toggle appends an entry with
`completed = true` and returns `true` (otherwise it flips the existing
entry in place, which the first two conjuncts capture). -/
theorem toggleCompletion_involution (logs : List HabitLog)
    (habitId date : String) :
    isCompleted
      (toggleCompletion (toggleCompletion logs habitId date).2 habitId date).2
      habitId date = isCompleted logs habitId date ∧
    (toggleCompletion logs habitId date).1 =
      isCompleted (toggleCompletion logs habitId date).2 habitId date ∧
    ((∀ l ∈ logs, ¬(l.habitId = habitId ∧ l.date = date)) →
      toggleCompletion logs habitId date =
        (true, logs ++ [⟨habitId, date, true⟩])) :=
  ⟨toggle_toggle_isCompleted logs habitId date,
   toggle_fst_eq_isCompleted logs habitId date,
   toggle_of_not_mem logs habitId date⟩

/-- Witness for C4 at a concrete state and a date with no entry. -/
theorem toggleCompletion_involution_instance :
    isCompleted
      (toggleCompletion (toggleCompletion state0.logs idA dateNew).2 idA dateNew).2
      idA dateNew = isCompleted state0.logs idA dateNew ∧
    toggleCompletion state0.logs idA dateNew =
      (true, state0.logs ++ [⟨idA, dateNew, true⟩]) :=
  ⟨(toggleCompletion_involution state0.logs idA dateNew).1,
   (toggleCompletion_involution state0.logs idA dateNew).2.2 (by decide)⟩

/-- **C7**: both `toggleCompletion` and `setCompletion` preserve the
at-most-one-entry-per-`(habitId, date)` invariant of the log. -/
theorem writes_preserve_unique_pair (logs : List HabitLog)
    (habitId date : String) (completed : Bool)
    (hu : UniquePerPair logs) :
    UniquePerPair (toggleCompletion logs habitId date).2 ∧
    UniquePerPair (setCompletion logs habitId date completed) :=
  ⟨UniquePerPair_toggle logs habitId date hu,
   UniquePerPair_set logs habitId date completed hu⟩

/-- Witness for C7 at a concrete log state. -/
theorem writes_preserve_unique_pair_instance :
    UniquePerPair (toggleCompletion state0.logs idA dateA).2 ∧
    UniquePerPair (setCompletion state0.logs idA dateA true) :=
  writes_preserve_unique_pair state0.logs idA dateA true
    (by show List.Pairwise _ _; decide)

/-- **C6** (code bug): `createHabit` appends exactly one habit carrying
the provided name, color and mandatory flag, with the generated id and
timestamp — but it silently drops the provided `reminder`: the created
habit always has `reminder = none`, although the creation payload
carried one (and the caller in the habit context checks
`newHabit.reminder?.enabled` to schedule a notification, a check that
can therefore never fire). -/
theorem createHabit_drops_reminder :
    createData0.reminder = some { enabled := true, time := "08:00" } ∧
    (createHabit freshId0 now0 createData0 state0).1.reminder = none ∧
    (createHabit freshId0 now0 createData0 state0).2.habits =
      state0.habits ++ [(createHabit freshId0 now0 createData0 state0).1] ∧
    (createHabit freshId0 now0 createData0 state0).2.logs = state0.logs ∧
    (createHabit freshId0 now0 createData0 state0).1.name = createData0.name ∧
    (createHabit freshId0 now0 createData0 state0).1.color = createData0.color ∧
    (createHabit freshId0 now0 createData0 state0).1.mandatory =
      createData0.mandatory ∧
    (createHabit freshId0 now0 createData0 state0).1.id = freshId0 ∧
    (createHabit freshId0 now0 createData0 state0).1.createdAt = now0 :=
  ⟨rfl, rfl, rfl, rfl, rfl, rfl, rfl, rfl, rfl⟩

/-- **C8**: an update for an unknown id returns `null` and leaves the
state untouched; otherwise the first habit with the id is merged with
exactly the provided fields, all other habits, the logs and the settings
are unchanged, `id` and `createdAt` are always preserved, and the merged
habit is returned. -/
theorem updateHabit_merge_frame (s : HabitAppState) (id : String)
    (u : UpdateHabitData) :
    ((∀ h ∈ s.habits, h.id ≠ id) → updateHabit id u s = (none, s)) ∧
    (∀ pre h post, s.habits = pre ++ h :: post → h.id = id →
      (∀ h0 ∈ pre, h0.id ≠ id) →
      (updateHabit id u s).1 = some (applyUpdate h u) ∧
      (updateHabit id u s).2.habits = pre ++ applyUpdate h u :: post ∧
      (updateHabit id u s).2.logs = s.logs ∧
      (updateHabit id u s).2.settings = s.settings ∧
      (applyUpdate h u).id = h.id ∧
      (applyUpdate h u).createdAt = h.createdAt ∧
      (u.name = none → (applyUpdate h u).name = h.name) ∧
      (u.color = none → (applyUpdate h u).color = h.color) ∧
      (u.mandatory = none → (applyUpdate h u).mandatory = h.mandatory) ∧
      (u.reminder = none → (applyUpdate h u).reminder = h.reminder) ∧
      (∀ v, u.name = some v → (applyUpdate h u).name = v) ∧
      (∀ v, u.color = some v → (applyUpdate h u).color = v) ∧
      (∀ v, u.mandatory = some v → (applyUpdate h u).mandatory = v) ∧
      (∀ v, u.reminder = some v → (applyUpdate h u).reminder = some v)) := by
  constructor
  · intro hno
    unfold updateHabit
    rw [updateHabitList_none s.habits id u hno]
  · intro pre h post hdec hh hpre
    have hfound := updateHabitList_found pre h post id u hpre hh
    unfold updateHabit
    rw [hdec, hfound]
    refine ⟨rfl, rfl, rfl, rfl, rfl, rfl, ?_, ?_, ?_, ?_, ?_, ?_, ?_, ?_⟩
    · intro hv; simp [applyUpdate, hv]
    · intro hv; simp [applyUpdate, hv]
    · intro hv; simp [applyUpdate, hv]
    · intro hv; simp [applyUpdate, hv]
    · intro v hv; simp [applyUpdate, hv]
    · intro v hv; simp [applyUpdate, hv]
    · intro v hv; simp [applyUpdate, hv]
    · intro v hv; simp [applyUpdate, hv]

/-- Witness for C8: a not-found update and a successful rename. -/
theorem updateHabit_merge_frame_instance :
    updateHabit idZ updData0 state0 = (none, state0) ∧
    (updateHabit idA updData0 state0).1 = some (applyUpdate habitA updData0) ∧
    (updateHabit idA updData0 state0).2.habits =
      [] ++ applyUpdate habitA updData0 :: [habitB] :=
  ⟨(updateHabit_merge_frame state0 idZ updData0).1 (by decide),
   ((updateHabit_merge_frame state0 idA updData0).2 [] habitA [habitB]
     (by decide) (by decide) (by decide)).1,
   ((updateHabit_merge_frame state0 idA updData0).2 [] habitA [habitB]
     (by decide) (by decide) (by decide)).2.1⟩

/-- **C5**: `deleteHabit` returns `true` exactly when a habit with the
id existed; on success the resulting state holds no habit with that id
and no log with that `habitId`, and every color of any subsequent
aggregation over the new state belongs to a surviving habit, whose id
differs from the deleted one. -/
theorem deleteHabit_cascade (s : HabitAppState) (id : String) :
    ((deleteHabit id s).1 = true ↔ ∃ h ∈ s.habits, h.id = id) ∧
    ((deleteHabit id s).1 = true →
      (∀ h ∈ (deleteHabit id s).2.habits, h.id ≠ id) ∧
      (∀ l ∈ (deleteHabit id s).2.logs, l.habitId ≠ id) ∧
      (∀ year filt d st c,
        (d, st) ∈ getDayStatusMap year (deleteHabit id s).2.habits
          (deleteHabit id s).2.logs filt →
        c ∈ st.completedColors →
        ∃ h2, h2 ∈ (deleteHabit id s).2.habits ∧ h2.id ≠ id ∧
          h2.color = c)) := by
  by_cases hcond : (s.habits.any fun h => h.id == id) = true
  · have hdel : deleteHabit id s =
        (true,
         { s with
           habits := s.habits.filter (fun h => h.id != id)
           logs := s.logs.filter (fun log => log.habitId != id) }) := by
      unfold deleteHabit
      rw [if_pos hcond]
    rw [hdel]
    constructor
    · constructor
      · intro _
        rcases List.any_eq_true.mp hcond with ⟨h, hh, hid⟩
        exact ⟨h, hh, by simpa using hid⟩
      · intro _
        rfl
    · intro _
      refine ⟨?_, ?_, ?_⟩
      · intro h hh
        have := (List.mem_filter.mp hh).2
        simpa using this
      · intro l hl
        have := (List.mem_filter.mp hl).2
        simpa using this
      · intro year filt d st c hmem hc
        rcases mem_completedColors hmem hc with ⟨h2, hh2, hcol, -⟩
        have hh2mem := activeHabitsOf_subset _ filt h2 hh2
        refine ⟨h2, hh2mem, ?_, hcol⟩
        have := (List.mem_filter.mp hh2mem).2
        simpa using this
  · have hdel : deleteHabit id s = (false, s) := by
      unfold deleteHabit
      rw [if_neg hcond]
    rw [hdel]
    constructor
    · constructor
      · intro hfalse
        exact absurd hfalse (by simp)
      · rintro ⟨h, hh, hid⟩
        exact absurd (List.any_eq_true.mpr ⟨h, hh, by simpa using hid⟩) hcond
    · intro hfalse
      exact absurd hfalse (by simp)

/-- Witness for C5 at a concrete state: deleting habit a succeeds and
purges its habit and logs. -/
theorem deleteHabit_cascade_instance :
    (deleteHabit idA state0).1 = true ∧
    (∀ h ∈ (deleteHabit idA state0).2.habits, h.id ≠ idA) ∧
    (∀ l ∈ (deleteHabit idA state0).2.logs, l.habitId ≠ idA) :=
  ⟨((deleteHabit_cascade state0 idA).1).mpr ⟨habitA, by decide, by decide⟩,
   ((deleteHabit_cascade state0 idA).2 (by decide)).1,
   ((deleteHabit_cascade state0 idA).2 (by decide)).2.1⟩

/-- **C1** (amended): the result map has an entry for a date exactly
when at least one log entry of the target year for that date survives
the id filter (membership of its `habitId` in `filterHabitIds` when a
non-empty filter is supplied, no restriction otherwise) — survival is
not membership in the active habit set; and a year with zero log entries
yields the empty map. -/
theorem getDayStatusMap_presence_iff (year : Nat) (habits : List Habit)
    (logs : List HabitLog) (filt : Option (List String)) (d : String) :
    ((∃ st, (d, st) ∈ getDayStatusMap year habits logs filt) ↔
      ∃ l, l ∈ activeLogsOf year logs filt ∧ l.date = d) ∧
    (getLogsForYear year logs = [] →
      getDayStatusMap year habits logs filt = []) := by
  constructor
  · constructor
    · rintro ⟨st, hmem⟩
      have hd := (mem_getDayStatusMap.mp hmem).1
      rcases (mem_dedupKeys _ _ _).mp hd with ⟨hd1, -⟩
      rcases List.mem_map.mp hd1 with ⟨l, hl, hld⟩
      exact ⟨l, hl, hld⟩
    · rintro ⟨l, hl, hld⟩
      rcases dayStatusFor_isSome (activeHabitsOf habits filt)
        (activeLogsOf year logs filt) (isFilterActive filt) d with ⟨st, hst⟩
      refine ⟨st, mem_getDayStatusMap.mpr ⟨?_, hst⟩⟩
      exact (mem_dedupKeys _ _ _).mpr
        ⟨List.mem_map.mpr ⟨l, hl, hld⟩, by simp⟩
  · intro hempty
    have hact : activeLogsOf year logs filt = [] := by
      simp [activeLogsOf, hempty]
    simp [getDayStatusMap, hact, dedupKeys]

/-- Counterexample to **C1** as stated: with an empty habit universe
(so the active habit set is empty) a date whose only log entry
references an unknown habit id is still present in the result map. -/
theorem getDayStatusMap_ghost_presence :
    (¬∃ l, l ∈ [ghostLog] ∧ ∃ h2, h2 ∈ activeHabitsOf [] none ∧
      l.habitId = h2.id) ∧
    ∃ st, ("2024-01-01", st) ∈ getDayStatusMap 2024 [] [ghostLog] none := by
  constructor
  · rintro ⟨l, -, h2, hh2, -⟩
    simp [activeHabitsOf, filterOn] at hh2
  · exact ⟨{ date := "2024-01-01", mandatoryCompleted := 0
             mandatoryTotal := 0, optionalCompleted := 0, optionalTotal := 0
             completedColors := [], isFiltered := some false }, by decide⟩

/-- Witness for C1 (amended) at a concrete state. -/
theorem getDayStatusMap_presence_iff_instance :
    ((∃ st, ("2024-01-01", st) ∈ getDayStatusMap 2024 [habitA, habitB]
        state0.logs none) ↔
      ∃ l, l ∈ activeLogsOf 2024 state0.logs none ∧ l.date = "2024-01-01") ∧
    getDayStatusMap 2024 [habitA, habitB] ([] : List HabitLog) none = [] :=
  ⟨(getDayStatusMap_presence_iff 2024 [habitA, habitB] state0.logs none
      "2024-01-01").1,
   (getDayStatusMap_presence_iff 2024 [habitA, habitB] [] none
      "2024-01-01").2 (by decide)⟩

/-- **C3** (amended): `isFiltered` is `some true` exactly for calls with
a non-empty filter; for a call with an empty filter list it is
`some false`; for a call with no filter argument it is left
undefined (`none`) on days with at least one completed color and is
`some false` only on days with none. -/
theorem getDayStatusMap_isFiltered_spec (year : Nat) (habits : List Habit)
    (logs : List HabitLog) (filt : Option (List String))
    (d : String) (st : DayStatus)
    (hmem : (d, st) ∈ getDayStatusMap year habits logs filt) :
    (∀ f, filt = some f → f ≠ [] → st.isFiltered = some true) ∧
    (filt = some [] → st.isFiltered = some false) ∧
    (filt = none → st.isFiltered =
      (if st.completedColors.isEmpty then some false else none)) := by
  have hsome := (mem_getDayStatusMap.mp hmem).2
  have hcolors := (dayStatusFor_some hsome).2.1
  refine ⟨?_, ?_, ?_⟩
  · rintro f rfl hne
    have ho : isFilterActive (some f) = some true := by
      simp [isFilterActive, hne]
    rw [ho] at hsome
    exact (dayStatusFor_isFiltered hsome).1 rfl
  · rintro rfl
    have ho : isFilterActive (some []) = some false := by
      simp [isFilterActive]
    rw [ho] at hsome
    rcases (dayStatusFor_isFiltered hsome).2 rfl with ⟨hne2, he2⟩
    by_cases hres : resolvedOf (activeHabitsOf habits (some []))
        (activeLogsOf year logs (some [])) d = []
    · exact he2 hres
    · exact hne2 hres
  · rintro rfl
    have ho : isFilterActive (none : Option (List String)) = none := rfl
    rw [ho] at hsome
    rcases (dayStatusFor_isFiltered hsome).2 rfl with ⟨hne2, he2⟩
    by_cases hres : resolvedOf (activeHabitsOf habits none)
        (activeLogsOf year logs none) d = []
    · rw [he2 hres, if_pos]
      rw [hcolors, hres]
      rfl
    · rw [hne2 hres, if_neg]
      rw [hcolors]
      simp [hres]

/-- Counterexample to **C3** as stated: an unfiltered call leaves
`isFiltered` undefined (not `false`) on a day with a completed color. -/
theorem getDayStatusMap_isFiltered_undefined :
    ∃ st, ("2024-01-01", st) ∈
        getDayStatusMap 2024 [habitA, habitB] [logA, logB] none ∧
      st.isFiltered ≠ some false :=
  ⟨stNF, by decide, by decide⟩

/-- Witness for C3 (amended) with a concrete non-empty filter. -/
theorem getDayStatusMap_isFiltered_spec_instance :
    stW.isFiltered = some true :=
  (getDayStatusMap_isFiltered_spec 2024 [habitA, habitB] [logA, logB]
    filtW "2024-01-01" stW (by decide)).1 ["a", "b"] rfl (by decide)

/-- **C2**: every completed color belongs to an active habit with a
completed log entry on that date; log entries whose habit does not
resolve in the active set contribute to no counter and no color (the
completed counters count exactly the date's active log entries that are
completed and resolvable); and under a non-empty filter the totals sum
to the number of habits of the universe whose id is in the filter. -/
theorem getDayStatusMap_color_count_sound (year : Nat)
    (habits : List Habit) (logs : List HabitLog)
    (filt : Option (List String)) (d : String) (st : DayStatus)
    (hmem : (d, st) ∈ getDayStatusMap year habits logs filt) :
    (∀ c ∈ st.completedColors,
      ∃ h2, h2 ∈ activeHabitsOf habits filt ∧ h2.color = c ∧
        ∃ l, l ∈ logs ∧ l.habitId = h2.id ∧ l.date = d ∧
          l.completed = true) ∧
    (st.mandatoryCompleted + st.optionalCompleted =
      ((activeLogsOf year logs filt).filter (fun l =>
        (l.completed &&
          ((activeHabitsOf habits filt).find?
            (fun h2 => h2.id == l.habitId)).isSome) &&
        (l.date == d))).length) ∧
    (∀ f, filt = some f → f ≠ [] →
      st.mandatoryTotal + st.optionalTotal =
        (habits.filter (fun h2 => f.contains h2.id)).length) := by
  rcases dayStatusFor_some (mem_getDayStatusMap.mp hmem).2 with
    ⟨-, -, hmc, hoc, hmt, hot, -⟩
  refine ⟨fun c hc => mem_completedColors hmem hc, ?_, ?_⟩
  · rw [hmc, hoc, length_filter_partition]
    rw [resolvedOf, length_filterMap_eq, List.filter_filter]
    apply congrArg
    apply List.filter_congr
    intro l _
    by_cases hcomp : l.completed = true <;> simp [hcomp]
  · rintro f rfl hne
    rw [hmt, hot, length_filter_partition]
    have hf : filterOn (some f) = true := by
      simp [filterOn, hne]
    simp [activeHabitsOf, hf]

/-- Witness for C2 at a concrete filtered aggregation. -/
theorem getDayStatusMap_color_count_sound_instance :
    (∀ c ∈ stW.completedColors,
      ∃ h2, h2 ∈ activeHabitsOf [habitA, habitB] filtW ∧ h2.color = c ∧
        ∃ l, l ∈ [logA, logB] ∧ l.habitId = h2.id ∧
          l.date = "2024-01-01" ∧ l.completed = true) ∧
    stW.mandatoryTotal + stW.optionalTotal =
      ([habitA, habitB].filter
        (fun h2 => (["a", "b"] : List String).contains h2.id)).length :=
  ⟨(getDayStatusMap_color_count_sound 2024 [habitA, habitB] [logA, logB]
      filtW "2024-01-01" stW (by decide)).1,
   (getDayStatusMap_color_count_sound 2024 [habitA, habitB] [logA, logB]
      filtW "2024-01-01" stW (by decide)).2.2 ["a", "b"] rfl (by decide)⟩

/-- With a mandatory total of zero the `DayCell` dot never takes the
mandatory-only (blue) branch. -/
lemma dotStyle_ne_blue_of_mt0 (st : DayStatus) (fut : Bool)
    (h0 : st.mandatoryTotal = 0) :
    dotStyle (some st) fut ≠ DotStyle.blue := by
  cases fut with
  | true => simp [dotStyle]
  | false =>
    simp only [dotStyle]
    rw [if_neg (by simp)]
    split
    · split <;> simp
    · split
      · simp
      · split
        · simp
        · split
          · rename_i hc
            exfalso
            rw [h0] at hc
            simp at hc
          · split
            · simp
            · split <;> simp

/-- **C9**: when no habit of the universe is mandatory, every emitted
status has `mandatoryTotal = 0`, the celebration flag
`allMandatoryComplete` is never set, and the dot style never takes the
mandatory-only (blue) branch — 0-of-0 mandatory is never treated as
all-mandatory-complete. -/
theorem no_mandatory_no_celebration (year : Nat) (habits : List Habit)
    (logs : List HabitLog) (filt : Option (List String))
    (hnm : ∀ h2 ∈ habits, h2.mandatory = false) :
    ∀ d st, (d, st) ∈ getDayStatusMap year habits logs filt →
      st.mandatoryTotal = 0 ∧
      (∀ fut, allMandatoryComplete (some st) fut = false) ∧
      (∀ fut, dotStyle (some st) fut ≠ DotStyle.blue) := by
  intro d st hmem
  rcases dayStatusFor_some (mem_getDayStatusMap.mp hmem).2 with
    ⟨-, -, -, -, hmt, -, -⟩
  have hfilter_nil :
      (activeHabitsOf habits filt).filter (fun x => x.mandatory) = [] := by
    rw [List.filter_eq_nil_iff]
    intro a ha
    simp [hnm a (activeHabitsOf_subset habits filt a ha)]
  have hmt0 : st.mandatoryTotal = 0 := by
    rw [hmt, hfilter_nil]
    rfl
  refine ⟨hmt0, ?_, fun fut => dotStyle_ne_blue_of_mt0 st fut hmt0⟩
  intro fut
  simp [allMandatoryComplete, hmt0]

/-- Witness for C9 at a concrete state with only an optional habit. -/
theorem no_mandatory_no_celebration_instance :
    stOpt.mandatoryTotal = 0 ∧
    allMandatoryComplete (some stOpt) false = false ∧
    dotStyle (some stOpt) false ≠ DotStyle.blue :=
  ⟨(no_mandatory_no_celebration 2024 [habitB] [logB] none (by decide)
      "2024-01-01" stOpt (by decide)).1,
   (no_mandatory_no_celebration 2024 [habitB] [logB] none (by decide)
      "2024-01-01" stOpt (by decide)).2.1 false,
   (no_mandatory_no_celebration 2024 [habitB] [logB] none (by decide)
      "2024-01-01" stOpt (by decide)).2.2 false⟩

/-- **C10**: in every emitted status the number of completed colors
equals the sum of the completed counters, and under the
one-entry-per-pair invariant each completed counter is bounded by its
total. -/
theorem dayStatus_counter_bounds (year : Nat) (habits : List Habit)
    (logs : List HabitLog) (filt : Option (List String))
    (d : String) (st : DayStatus)
    (hmem : (d, st) ∈ getDayStatusMap year habits logs filt) :
    st.completedColors.length =
      st.mandatoryCompleted + st.optionalCompleted ∧
    (UniquePerPair logs →
      st.mandatoryCompleted ≤ st.mandatoryTotal ∧
      st.optionalCompleted ≤ st.optionalTotal) := by
  rcases dayStatusFor_some (mem_getDayStatusMap.mp hmem).2 with
    ⟨-, hcolors, hmc, hoc, hmt, hot, -⟩
  constructor
  · rw [hcolors, hmc, hoc, List.length_map]
    exact (length_filter_partition _ _).symm
  · intro hu
    have hpw := dateLogs_ids_pairwise year filt d hu
    exact ⟨by rw [hmc, hmt]; exact resolved_filter_length_le _ _ _ _ hpw,
           by rw [hoc, hot]; exact resolved_filter_length_le _ _ _ _ hpw⟩

/-- Witness for C10 at a concrete unfiltered aggregation. -/
theorem dayStatus_counter_bounds_instance :
    stNF.completedColors.length =
      stNF.mandatoryCompleted + stNF.optionalCompleted ∧
    stNF.mandatoryCompleted ≤ stNF.mandatoryTotal ∧
    stNF.optionalCompleted ≤ stNF.optionalTotal :=
  ⟨(dayStatus_counter_bounds 2024 [habitA, habitB] [logA, logB] none
      "2024-01-01" stNF (by decide)).1,
   (dayStatus_counter_bounds 2024 [habitA, habitB] [logA, logB] none
      "2024-01-01" stNF (by decide)).2 (by show List.Pairwise _ _; decide)⟩

end HabitTracker
